import Mathlib

/-!
Shallow embedding of the staking program (src/program/src/{state.rs, utils.rs,
processor.rs}).  Machine integers are modelled as `Nat` with explicit bounds:
unchecked Rust `u64` arithmetic (which wraps in release builds) is modelled by
`wadd64`/`wsub64`/`wmul64` reducing modulo `2^64`, and `checked_*` operations
return `Option Nat`.  Fallible operations return `Except StakingErr`; a Rust
`panic` (from `assert!`, `unwrap` or `expect`) aborts the transaction exactly
like a returned error, so it is modelled with the dedicated
`StakingErr.assertionFailed` value (for `expect` on an inner error the inner
error is propagated, which is observationally the same abort).
-/

namespace Staking

def U64SIZE : Nat := 2 ^ 64

def U128SIZE : Nat := 2 ^ 128

/-- Wrapping `u64` addition (Rust release-mode `+`), for operands below `2^64`. -/
def wadd64 (a b : Nat) : Nat := (a + b) % U64SIZE

/-- Wrapping `u64` subtraction (Rust release-mode `-`), for operands below `2^64`. -/
def wsub64 (a b : Nat) : Nat := (a + U64SIZE - b) % U64SIZE

/-- Wrapping `u64` multiplication (Rust release-mode `*`), for operands below `2^64`. -/
def wmul64 (a b : Nat) : Nat := (a * b) % U64SIZE

/-- Rust `u64::checked_add`. -/
def checkedAdd64 (a b : Nat) : Option Nat :=
  if a + b < U64SIZE then some (a + b) else none

/-- Rust `u64::checked_sub` (same definition serves `u8`/`u128` checked_sub,
whose success condition is also just `b ≤ a`). -/
def checkedSub (a b : Nat) : Option Nat :=
  if b ≤ a then some (a - b) else none

/-- Rust `u64::checked_mul`. -/
def checkedMul64 (a b : Nat) : Option Nat :=
  if a * b < U64SIZE then some (a * b) else none

/-- Rust `u128::checked_mul`. -/
def checkedMul128 (a b : Nat) : Option Nat :=
  if a * b < U128SIZE then some (a * b) else none

/-- Rust `u128::checked_add`. -/
def checkedAdd128 (a b : Nat) : Option Nat :=
  if a + b < U128SIZE then some (a + b) else none

/-- Rust `checked_div` (fails only on division by zero; `Nat.div` already
truncates toward zero like Rust unsigned division). -/
def checkedDiv (a b : Nat) : Option Nat :=
  if b = 0 then none else some (a / b)

/-- Error kinds of `error.rs` that the embedded code paths can produce, plus
`assertionFailed` modelling a Rust panic (`assert!` / `unwrap` / `expect`).
`std::num::TryFromIntError` converts to `StakingError::Overflow` in `error.rs`,
so a failed `u64::try_from` is modelled as `overflow`. -/
inductive StakingErr where
  | rewardOverflow
  | rewardMulPrecisionOverflow
  | rewardMulPrecisionDivSupplyOverflow
  | accruedTokenPerShareOverflow
  | overflow
  | assertionFailed
  deriving Repr, DecidableEq

/-- The `StakePool` state of `state.rs` (the fields the accrual logic reads or
writes; `owner`, `mint`, metadata and packing are identity-validation and
serialization concerns outside these claims). `COption<T>` becomes `Option Nat`. -/
structure StakePool where
  precision_factor_rank : Nat
  bonus_multiplier : Option Nat
  bonus_start_block : Option Nat
  bonus_end_block : Option Nat
  last_reward_block : Nat
  start_block : Nat
  end_block : Nat
  reward_amount : Nat
  reward_per_block : Nat
  accrued_token_per_share : Nat
  deriving Repr, DecidableEq

/-- The `UserInfo` state of `state.rs` (minus the token-account key). -/
structure UserInfo where
  amount : Nat
  reward_debt : Nat
  deriving Repr, DecidableEq

/-- `utils.rs::get_precision_factor`: `10u64.checked_pow(rank)`, which succeeds
exactly when `10^rank` fits in a `u64`. -/
def get_precision_factor (precision_factor_rank : Nat) : Except StakingErr Nat :=
  if 10 ^ precision_factor_rank < U64SIZE then Except.ok (10 ^ precision_factor_rank)
  else Except.error StakingErr.overflow

/-- The `from`-clamp at the top of `state.rs::get_multiplier`:
`if from < self.start_block { from = self.start_block }`. -/
def clampFrom (p : StakePool) (b : Nat) : Nat :=
  if b < p.start_block then p.start_block else b

/-- The `to`-clamp at the top of `state.rs::get_multiplier`:
`if self.end_block < to { to = self.end_block }`. -/
def clampTo (p : StakePool) (b : Nat) : Nat :=
  if p.end_block < b then p.end_block else b

/-- The unpacking of `self.bonus_start_block` in `state.rs::get_multiplier`:
`Some(v)` gives `v`, `None` gives `0`. -/
def bonusStartOrZero (p : StakePool) : Nat :=
  match p.bonus_start_block with
  | some v => v
  | none => 0

/-- The unpacking of `self.bonus_end_block` in `state.rs::get_multiplier`:
`Some(v)` gives `v`, `None` gives `0`. -/
def bonusEndOrZero (p : StakePool) : Nat :=
  match p.bonus_end_block with
  | some v => v
  | none => 0

/-- `state.rs::get_multiplier`.  `self.bonus_multiplier.unwrap()` panics when the
field is `None`, hence the `Option` result; unset bonus edges default to `0`.
The five-way branch mirrors the source; the unchecked `u64` arithmetic inside
each branch wraps (`wadd64`/`wsub64`/`wmul64` — wrapping ops reduce modulo
`2^64` at each step, so regrouping the left-associated Rust expression is
value-preserving). -/
def get_multiplier (p : StakePool) (fromBlock toBlock : Nat) : Option Nat :=
  let f := clampFrom p fromBlock
  let t := clampTo p toBlock
  match p.bonus_multiplier with
  | none => none
  | some m =>
    let s := bonusStartOrZero p
    let e := bonusEndOrZero p
    some (
      if f < s ∧ t > e then
        wadd64 (wadd64 (wsub64 s f) (wsub64 t e)) (wmul64 (wsub64 e s) m)
      else if f < s ∧ t > s then
        wadd64 (wsub64 s f) (wmul64 (wsub64 t s) m)
      else if f < e ∧ t > e then
        wadd64 (wsub64 t e) (wmul64 (wsub64 e f) m)
      else if f ≥ s ∧ t ≤ e then
        wmul64 (wsub64 t f) m
      else
        wsub64 t f)

/-- The `set_last_reward_block` conditional at the end of
`state.rs::update_pool`: `if end_block > current_block` the checkpoint becomes
`current_block`, otherwise `end_block`. -/
def advanceCheckpoint (p : StakePool) (current_block : Nat) : StakePool :=
  if p.end_block > current_block then { p with last_reward_block := current_block }
  else { p with last_reward_block := p.end_block }

/-- The bonus-window expiry block at the end of `state.rs::update_pool`: when
`bonus_end_block` is `Some(v)` with `v != 0` and `current_block > v`, both
bonus edges are cleared and the multiplier reset to `1`. -/
def applyBonusReset (p : StakePool) (current_block : Nat) : StakePool :=
  match p.bonus_end_block with
  | some v =>
    if v ≠ 0 ∧ current_block > v then
      { p with bonus_start_block := none,
               bonus_end_block := none,
               bonus_multiplier := some 1 }
    else p
  | none => p

/-- `state.rs::update_pool`.  `staked_token_supply` is the staked-vault token
balance, `current_block` is `clock.slot`. -/
def update_pool (p : StakePool) (staked_token_supply current_block : Nat) :
    Except StakingErr StakePool :=
  if current_block ≤ p.last_reward_block then Except.ok p
  else if staked_token_supply = 0 then
    Except.ok { p with last_reward_block := current_block }
  else
    match get_multiplier p p.last_reward_block current_block with
    | none => Except.error StakingErr.assertionFailed
    | some multiplier =>
      match checkedMul64 multiplier p.reward_per_block with
      | none => Except.error StakingErr.rewardOverflow
      | some reward =>
        match get_precision_factor p.precision_factor_rank with
        | Except.error e => Except.error e
        | Except.ok precision_factor =>
          match checkedMul128 reward precision_factor with
          | none => Except.error StakingErr.rewardMulPrecisionOverflow
          | some num =>
            match checkedDiv num staked_token_supply with
            | none => Except.error StakingErr.rewardMulPrecisionDivSupplyOverflow
            | some share =>
              match checkedAdd128 p.accrued_token_per_share share with
              | none => Except.error StakingErr.accruedTokenPerShareOverflow
              | some acc =>
                Except.ok (applyBonusReset
                  (advanceCheckpoint { p with accrued_token_per_share := acc }
                    current_block)
                  current_block)

/-- `Except.isOk`-style discriminator used to state "the operation fails". -/
def exceptOk {α : Type} (r : Except StakingErr α) : Bool :=
  match r with
  | Except.ok _ => true
  | Except.error _ => false

/-- The state-arithmetic core of `processor.rs::process_initialize` (account
creation, rent, transfers and packing elided): asserts `mint.decimals < 21`,
derives `precision_factor_rank = 21 - decimals` (checked `u8` sub) and
`reward_per_block = reward_amount / (end_block - start_block)` (checked sub and
div), and builds the fresh `StakePool` with `last_reward_block = 0`,
`accrued_token_per_share = 0`, `bonus_multiplier = Some(1)` and the bonus
window unset. -/
def process_initialize (mint_decimals reward_amount start_block end_block : Nat) :
    Except StakingErr StakePool :=
  if ¬ mint_decimals < 21 then Except.error StakingErr.assertionFailed
  else
    match checkedSub 21 mint_decimals with
    | none => Except.error StakingErr.overflow
    | some precision_factor_rank =>
      match checkedSub end_block start_block with
      | none => Except.error StakingErr.overflow
      | some duration =>
        match checkedDiv reward_amount duration with
        | none => Except.error StakingErr.overflow
        | some reward_per_block =>
          Except.ok {
            precision_factor_rank := precision_factor_rank,
            bonus_multiplier := some 1,
            bonus_start_block := none,
            bonus_end_block := none,
            last_reward_block := 0,
            start_block := start_block,
            end_block := end_block,
            reward_amount := reward_amount,
            reward_per_block := reward_per_block,
            accrued_token_per_share := 0 }

/-- `processor.rs::get_pending` (identical to `utils.rs::get_pending`):
`(current_amount as u128 * accrued).checked_div(pf).checked_sub(debt)` then
`u64::try_from`; every failure surfaces as `StakingError::Overflow`. -/
def get_pending (current_amount accrued_token_per_share precision_factor_rank
    reward_debt : Nat) : Except StakingErr Nat :=
  match get_precision_factor precision_factor_rank with
  | Except.error e => Except.error e
  | Except.ok precision_factor =>
    match checkedMul128 current_amount accrued_token_per_share with
    | none => Except.error StakingErr.overflow
    | some prod =>
      match checkedDiv prod precision_factor with
      | none => Except.error StakingErr.overflow
      | some q =>
        match checkedSub q reward_debt with
        | none => Except.error StakingErr.overflow
        | some pending =>
          if pending < U64SIZE then Except.ok pending
          else Except.error StakingErr.overflow

/-- `processor.rs::get_reward_debt`: checked mul/div in `u128`, then a plain
truncating `as u64` cast on the result. -/
def get_reward_debt (user_amount accrued_token_per_share
    precision_factor_rank : Nat) : Except StakingErr Nat :=
  match get_precision_factor precision_factor_rank with
  | Except.error e => Except.error e
  | Except.ok precision_factor =>
    match checkedMul128 user_amount accrued_token_per_share with
    | none => Except.error StakingErr.overflow
    | some prod =>
      match checkedDiv prod precision_factor with
      | none => Except.error StakingErr.overflow
      | some q => Except.ok (q % U64SIZE)

/-- The state core of `processor.rs::process_set_bonus_time` (signer and
account validation elided).  Mirrors the source order: the two `assert!`s on
the window, `update_pool`, the `assert!` that no bonus is armed, the shortened
`end_block` via `checked_sub` of the wrapping product
`(bonus_end_block - bonus_start_block) * (bonus_multiplier as u64 - 1)`, the
budget `assert!`, then the field writes (the stored bonus end is clamped to the
new pool end). -/
def process_set_bonus_time (p : StakePool) (staked_token_supply current_block
    bonus_multiplier bonus_start_block bonus_end_block : Nat) :
    Except StakingErr StakePool :=
  if ¬ bonus_start_block < bonus_end_block then Except.error StakingErr.assertionFailed
  else if ¬ bonus_start_block ≥ p.start_block then Except.error StakingErr.assertionFailed
  else
    match update_pool p staked_token_supply current_block with
    | Except.error e => Except.error e
    | Except.ok p =>
      if ¬ p.bonus_end_block = none then Except.error StakingErr.assertionFailed
      else
        match checkedSub p.end_block
            (wmul64 (wsub64 bonus_end_block bonus_start_block)
                    (wsub64 bonus_multiplier 1)) with
        | none => Except.error StakingErr.overflow
        | some end_block =>
          if ¬ (end_block > current_block ∧ end_block > p.start_block) then
            Except.error StakingErr.assertionFailed
          else
            let p := if end_block < bonus_end_block then
                       { p with bonus_end_block := some end_block }
                     else
                       { p with bonus_end_block := some bonus_end_block }
            Except.ok { p with bonus_multiplier := some bonus_multiplier,
                               bonus_start_block := some bonus_start_block,
                               end_block := end_block }

/-- The state core of `processor.rs::process_deposit` (account plumbing and
token transfers elided; the returned `Nat` is the pending reward actually paid
out of the reward vault).  `staked_token_supply` is the vault balance read
*before* the deposit transfer, which is what the source passes to
`update_pool`.  Source order: `update_pool`, `amount` added to the position
(checked), pending computed from the *old* amount and paid when the old amount
and the pending are both positive (decrementing `reward_amount`, checked), and
finally `reward_debt` recomputed from the new amount. -/
def process_deposit (p : StakePool) (u : UserInfo)
    (staked_token_supply current_block amount : Nat) :
    Except StakingErr (StakePool × UserInfo × Nat) :=
  match update_pool p staked_token_supply current_block with
  | Except.error e => Except.error e
  | Except.ok p =>
    let current_amount := u.amount
    match checkedAdd64 u.amount amount with
    | none => Except.error StakingErr.overflow
    | some new_amount =>
      match (if current_amount > 0 then
               get_pending current_amount p.accrued_token_per_share
                 p.precision_factor_rank u.reward_debt
             else Except.ok 0) with
      | Except.error e => Except.error e
      | Except.ok pending =>
        match (if current_amount > 0 ∧ pending > 0 then
                 checkedSub p.reward_amount pending
               else some p.reward_amount) with
        | none => Except.error StakingErr.overflow
        | some ra =>
          match get_reward_debt new_amount p.accrued_token_per_share
              p.precision_factor_rank with
          | Except.error e => Except.error e
          | Except.ok debt =>
            Except.ok ({ p with reward_amount := ra },
                       { u with amount := new_amount, reward_debt := debt },
                       if current_amount > 0 ∧ pending > 0 then pending else 0)

/-- The state core of `processor.rs::process_withdraw` (account plumbing and
token transfers elided; the two returned `Nat`s are the principal and the
pending reward transferred out).  Source order: the `assert!` that the
position covers `amount`, `update_pool`, the principal subtraction and
transfer when `amount > 0`, `get_pending` on the *pre-withdraw* amount and
its payout, `reward_debt` recomputed from the new amount, and the
*unconditional* `checked_sub` of `pending` from `reward_amount`. -/
def process_withdraw (p : StakePool) (u : UserInfo)
    (staked_token_supply current_block amount : Nat) :
    Except StakingErr (StakePool × UserInfo × Nat × Nat) :=
  if ¬ u.amount ≥ amount then Except.error StakingErr.assertionFailed
  else
    match update_pool p staked_token_supply current_block with
    | Except.error e => Except.error e
    | Except.ok p =>
      let current_amount := u.amount
      match (if amount > 0 then checkedSub u.amount amount else some u.amount) with
      | none => Except.error StakingErr.overflow
      | some new_amount =>
        match get_pending current_amount p.accrued_token_per_share
            p.precision_factor_rank u.reward_debt with
        | Except.error e => Except.error e
        | Except.ok pending =>
          match get_reward_debt new_amount p.accrued_token_per_share
              p.precision_factor_rank with
          | Except.error e => Except.error e
          | Except.ok debt =>
            match checkedSub p.reward_amount pending with
            | none => Except.error StakingErr.overflow
            | some ra =>
              Except.ok ({ p with reward_amount := ra },
                         { u with amount := new_amount, reward_debt := debt },
                         amount, pending)

/-- The state core of `processor.rs::process_emergency_withdraw` (signer and
account checks elided; the returned `Nat` is the amount transferred back).
It never calls `update_pool` or `get_pending`: it zeroes `user_data.amount`
via `checked_sub` of itself and transfers exactly the recorded amount; the
`StakePool` is read but never written back, so it is returned unchanged. -/
def process_emergency_withdraw (p : StakePool) (u : UserInfo) :
    Except StakingErr (StakePool × UserInfo × Nat) :=
  let amount_to_transfer := u.amount
  if amount_to_transfer > 0 then
    match checkedSub u.amount amount_to_transfer with
    | none => Except.error StakingErr.overflow
    | some v => Except.ok (p, { u with amount := v }, amount_to_transfer)
  else Except.ok (p, u, 0)

/-! ### Concrete pool states used in witnesses and counterexamples -/

/-- Scenario A of the spec: `start_time = 0`, `end_time = 100`,
`reward_amount = 1000`, hence `reward_rate_per_unit_time = 10`; the
precision-factor rank `2` corresponds to a mint with 19 decimals.  This is
exactly `process_initialize 19 1000 0 100`. -/
def poolA : StakePool :=
  { precision_factor_rank := 2
    bonus_multiplier := some 1
    bonus_start_block := none
    bonus_end_block := none
    last_reward_block := 0
    start_block := 0
    end_block := 100
    reward_amount := 1000
    reward_per_block := 10
    accrued_token_per_share := 0 }

/-- `poolA` after `update_pool` at time `50` with vault balance `100`. -/
def poolA50 : StakePool :=
  { poolA with accrued_token_per_share := 500, last_reward_block := 50 }

/-- A fresh pool (no bonus ever armed) with a longer schedule, used for the
C3 re-arming chain. -/
def c3pool0 : StakePool := { poolA with end_block := 120, reward_amount := 1200 }

/-- `c3pool0` after a successful `set_bonus_time(2, 10, 20)` at block 0:
window `[10,20]` armed, `end_block` shortened `120 → 110`. -/
def c3pool1 : StakePool :=
  { c3pool0 with bonus_multiplier := some 2, bonus_start_block := some 10,
                 bonus_end_block := some 20, end_block := 110 }

/-- `c3pool1` after a *second* successful `set_bonus_time(2, 40, 60)` at
block 30 (the first window having expired): a new window `[40,60]` is armed. -/
def c3pool2 : StakePool :=
  { c3pool1 with bonus_start_block := some 40, bonus_end_block := some 60,
                 last_reward_block := 30, end_block := 90,
                 accrued_token_per_share := 400 }

/-- A mid-life pool whose checkpoint 50 sits inside `[start, end] = [0, 100]`,
used for the C4 counterexample. -/
def c4pool : StakePool := { poolA with last_reward_block := 50 }

/-- `poolA` after `set_bonus_time(2, 40, 60)` at block 10 with vault balance
100: window `[40,60]` armed, `end_block` shortened `100 → 80`. -/
def c7pool1 : StakePool :=
  { poolA with bonus_multiplier := some 2, bonus_start_block := some 40,
               bonus_end_block := some 60, last_reward_block := 10,
               end_block := 80, accrued_token_per_share := 100 }

/-- A pool mid-life with `accrued_token_per_share = 5 * precision_factor` and
`reward_amount = 1000`, used for the C10 witness. -/
def c10pool : StakePool :=
  { poolA with last_reward_block := 50, accrued_token_per_share := 500 }

/-- `c10pool` after paying out a pending reward of 500. -/
def c10poolAfter : StakePool := { c10pool with reward_amount := 500 }

/-- `poolA` updated at block 150 (past its end): accrual runs over the
clamped interval `[0,100]` and the checkpoint stops at `end_block`. -/
def poolA150 : StakePool :=
  { poolA with accrued_token_per_share := 1000, last_reward_block := 100 }

/-! ### Numeric helper lemmas -/

lemma u64size_eq : U64SIZE = 18446744073709551616 := by norm_num [U64SIZE]

lemma u128size_eq : U128SIZE = 340282366920938463463374607431768211456 := by
  norm_num [U128SIZE]

lemma wsub64_eq {a b : Nat} (h1 : b ≤ a) (h2 : a < U64SIZE) : wsub64 a b = a - b := by
  unfold wsub64
  rw [u64size_eq] at h2 ⊢
  omega

lemma wmul64_eq {a b : Nat} (h : a * b < U64SIZE) : wmul64 a b = a * b :=
  Nat.mod_eq_of_lt h

lemma wadd64_eq {a b : Nat} (h : a + b < U64SIZE) : wadd64 a b = a + b :=
  Nat.mod_eq_of_lt h

lemma wsub64_self (a : Nat) : wsub64 a a = 0 := by
  unfold wsub64 U64SIZE
  omega

lemma checkedMul64_some {a b c : Nat} (h : checkedMul64 a b = some c) :
    c = a * b ∧ a * b < U64SIZE := by
  unfold checkedMul64 at h; split at h <;> simp_all

lemma checkedMul128_some {a b c : Nat} (h : checkedMul128 a b = some c) :
    c = a * b ∧ a * b < U128SIZE := by
  unfold checkedMul128 at h; split at h <;> simp_all

lemma checkedAdd64_some {a b c : Nat} (h : checkedAdd64 a b = some c) :
    c = a + b ∧ a + b < U64SIZE := by
  unfold checkedAdd64 at h; split at h <;> simp_all

lemma checkedAdd128_some {a b c : Nat} (h : checkedAdd128 a b = some c) :
    c = a + b ∧ a + b < U128SIZE := by
  unfold checkedAdd128 at h; split at h <;> simp_all

lemma checkedSub_some {a b c : Nat} (h : checkedSub a b = some c) :
    c = a - b ∧ b ≤ a := by
  unfold checkedSub at h; split at h <;> simp_all

lemma checkedDiv_some {a b c : Nat} (h : checkedDiv a b = some c) :
    c = a / b ∧ b ≠ 0 := by
  unfold checkedDiv at h; split at h <;> simp_all

lemma get_precision_factor_ok {r pf : Nat} (h : get_precision_factor r = Except.ok pf) :
    pf = 10 ^ r ∧ 10 ^ r < U64SIZE := by
  unfold get_precision_factor at h; split at h <;> simp_all

/-! ### Structural lemmas about `update_pool` -/

/-- Inversion principle for a successful `update_pool` call: it is either the
same-slot no-op, the empty-vault checkpoint bump, or the full accrual path. -/
lemma update_pool_ok_inv {p p1 : StakePool} {s n : Nat}
    (h : update_pool p s n = Except.ok p1) :
    (n ≤ p.last_reward_block ∧ p1 = p) ∨
    (p.last_reward_block < n ∧ s = 0 ∧ p1 = { p with last_reward_block := n }) ∨
    (p.last_reward_block < n ∧ s ≠ 0 ∧ ∃ mult pf,
       get_multiplier p p.last_reward_block n = some mult ∧
       get_precision_factor p.precision_factor_rank = Except.ok pf ∧
       mult * p.reward_per_block < U64SIZE ∧
       mult * p.reward_per_block * pf < U128SIZE ∧
       p.accrued_token_per_share + mult * p.reward_per_block * pf / s < U128SIZE ∧
       p1 = applyBonusReset (advanceCheckpoint
              { p with accrued_token_per_share := p.accrued_token_per_share +
                  mult * p.reward_per_block * pf / s } n) n) := by
  unfold update_pool at h
  split at h
  · left; exact ⟨by assumption, by injection h with h; exact h.symm⟩
  · split at h
    · right; left
      refine ⟨by omega, by assumption, ?_⟩
      injection h with h; exact h.symm
    · right; right
      refine ⟨by omega, by assumption, ?_⟩
      split at h
      · exact absurd h (by simp)
      · rename_i mult hm
        split at h
        · exact absurd h (by simp)
        · rename_i reward hmul
          split at h
          · exact absurd h (by simp)
          · rename_i pf hpf
            split at h
            · exact absurd h (by simp)
            · rename_i num hmul2
              split at h
              · exact absurd h (by simp)
              · rename_i share hdiv
                split at h
                · exact absurd h (by simp)
                · rename_i acc hadd
                  obtain ⟨rfl, hb1⟩ := checkedMul64_some hmul
                  obtain ⟨rfl, hb2⟩ := checkedMul128_some hmul2
                  obtain ⟨rfl, hs0⟩ := checkedDiv_some hdiv
                  obtain ⟨rfl, hb3⟩ := checkedAdd128_some hadd
                  refine ⟨mult, pf, hm, hpf, hb1, hb2, hb3, ?_⟩
                  injection h with h; exact h.symm

/-- Forward computation of `update_pool` on the accrual path. -/
lemma update_pool_full_eq (p : StakePool) (s n mult pf : Nat)
    (h1 : p.last_reward_block < n) (h2 : s ≠ 0)
    (hm : get_multiplier p p.last_reward_block n = some mult)
    (hpf : get_precision_factor p.precision_factor_rank = Except.ok pf)
    (hb1 : mult * p.reward_per_block < U64SIZE)
    (hb2 : mult * p.reward_per_block * pf < U128SIZE)
    (hb3 : p.accrued_token_per_share + mult * p.reward_per_block * pf / s < U128SIZE) :
    update_pool p s n = Except.ok (applyBonusReset (advanceCheckpoint
      { p with accrued_token_per_share := p.accrued_token_per_share +
          mult * p.reward_per_block * pf / s } n) n) := by
  unfold update_pool
  rw [if_neg (by omega), if_neg h2, hm]
  simp only [checkedMul64, checkedMul128, checkedDiv, checkedAdd128,
    if_pos hb1, if_pos hb2, if_neg h2, if_pos hb3, hpf]

lemma update_pool_noop (p : StakePool) (s n : Nat) (h : n ≤ p.last_reward_block) :
    update_pool p s n = Except.ok p := by
  unfold update_pool; rw [if_pos h]

lemma update_pool_empty (p : StakePool) (n : Nat) (h : p.last_reward_block < n) :
    update_pool p 0 n = Except.ok { p with last_reward_block := n } := by
  unfold update_pool; rw [if_neg (by omega), if_pos rfl]

lemma advanceCheckpoint_fields (p : StakePool) (n : Nat) :
    (advanceCheckpoint p n).accrued_token_per_share = p.accrued_token_per_share ∧
    (advanceCheckpoint p n).start_block = p.start_block ∧
    (advanceCheckpoint p n).end_block = p.end_block ∧
    (advanceCheckpoint p n).reward_amount = p.reward_amount ∧
    (advanceCheckpoint p n).reward_per_block = p.reward_per_block ∧
    (advanceCheckpoint p n).precision_factor_rank = p.precision_factor_rank ∧
    (advanceCheckpoint p n).bonus_multiplier = p.bonus_multiplier ∧
    (advanceCheckpoint p n).bonus_start_block = p.bonus_start_block ∧
    (advanceCheckpoint p n).bonus_end_block = p.bonus_end_block ∧
    (advanceCheckpoint p n).last_reward_block = min n p.end_block := by
  unfold advanceCheckpoint
  split <;> simp_all <;> omega

lemma applyBonusReset_fields (p : StakePool) (n : Nat) :
    (applyBonusReset p n).accrued_token_per_share = p.accrued_token_per_share ∧
    (applyBonusReset p n).start_block = p.start_block ∧
    (applyBonusReset p n).end_block = p.end_block ∧
    (applyBonusReset p n).reward_amount = p.reward_amount ∧
    (applyBonusReset p n).reward_per_block = p.reward_per_block ∧
    (applyBonusReset p n).precision_factor_rank = p.precision_factor_rank ∧
    (applyBonusReset p n).last_reward_block = p.last_reward_block := by
  unfold applyBonusReset
  rcases hb : p.bonus_end_block with _ | v <;> simp <;> split <;> simp

/-- `update_pool` never changes the configuration fields of the pool. -/
lemma update_pool_preserves {p p1 : StakePool} {s n : Nat}
    (h : update_pool p s n = Except.ok p1) :
    p1.start_block = p.start_block ∧
    p1.end_block = p.end_block ∧
    p1.reward_amount = p.reward_amount ∧
    p1.reward_per_block = p.reward_per_block ∧
    p1.precision_factor_rank = p.precision_factor_rank := by
  rcases update_pool_ok_inv h with ⟨-, rfl⟩ | ⟨-, -, rfl⟩ | ⟨-, -, mult, pf, -, -, -, -, -, rfl⟩
  · exact ⟨rfl, rfl, rfl, rfl, rfl⟩
  · exact ⟨rfl, rfl, rfl, rfl, rfl⟩
  · obtain ⟨-, h2, h3, h4, h5, h6, -⟩ := applyBonusReset_fields (advanceCheckpoint
      { p with accrued_token_per_share := p.accrued_token_per_share +
          mult * p.reward_per_block * pf / s } n) n
    obtain ⟨-, g2, g3, g4, g5, g6, -⟩ := advanceCheckpoint_fields
      { p with accrued_token_per_share := p.accrued_token_per_share +
          mult * p.reward_per_block * pf / s } n
    refine ⟨?_, ?_, ?_, ?_, ?_⟩ <;> simp_all

/-- An armed bonus window whose end has not yet been reached survives
`update_pool` unchanged. -/
lemma applyBonusReset_keep {q : StakePool} {n v : Nat}
    (hv : q.bonus_end_block = some v) (hn : n ≤ v) :
    applyBonusReset q n = q := by
  unfold applyBonusReset
  split
  · rename_i v' hv'
    rw [hv] at hv'
    injection hv' with hv'
    rw [if_neg (by omega)]
  · rfl

lemma update_pool_keeps_armed_bonus {p p1 : StakePool} {s n v : Nat}
    (hv : p.bonus_end_block = some v) (hn : n ≤ v)
    (h : update_pool p s n = Except.ok p1) :
    p1.bonus_end_block = some v := by
  rcases update_pool_ok_inv h with ⟨-, rfl⟩ | ⟨-, -, rfl⟩ | ⟨-, -, mult, pf, -, -, -, -, -, rfl⟩
  · exact hv
  · exact hv
  · obtain ⟨-, -, -, -, -, -, -, -, hb, -⟩ := advanceCheckpoint_fields
      { p with accrued_token_per_share := p.accrued_token_per_share +
          mult * p.reward_per_block * pf / s } n
    have hbe : (advanceCheckpoint
        { p with accrued_token_per_share := p.accrued_token_per_share +
            mult * p.reward_per_block * pf / s } n).bonus_end_block = some v := by
      rw [hb]; exact hv
    rw [applyBonusReset_keep hbe hn]
    exact hbe

/-! ### Claim theorems -/

/-- Claim C1: on the accrual path of `update_pool` (current block past the
checkpoint, nonzero staked vault balance), a successful call increases
`accrued_token_per_share` by exactly
`multiplier * reward_per_block * 10^precision_factor_rank / supply`, with
truncating (floor) division — the multiplier being the `get_multiplier`
weighted unit count. -/
theorem c1_update_pool_accrual_delta (p p1 : StakePool) (s n mult : Nat)
    (hn : p.last_reward_block < n) (hs : s ≠ 0)
    (hm : get_multiplier p p.last_reward_block n = some mult)
    (h : update_pool p s n = Except.ok p1) :
    p1.accrued_token_per_share = p.accrued_token_per_share +
      mult * p.reward_per_block * 10 ^ p.precision_factor_rank / s := by
  rcases update_pool_ok_inv h with ⟨h1, -⟩ | ⟨-, h2, -⟩ |
    ⟨-, -, mult', pf, hm', hpf, -, -, -, rfl⟩
  · omega
  · exact absurd h2 hs
  · rw [hm'] at hm
    have hmm : mult = mult' := by injection hm with h; exact h.symm
    subst hmm
    obtain ⟨rfl, -⟩ := get_precision_factor_ok hpf
    obtain ⟨ha, -⟩ := applyBonusReset_fields (advanceCheckpoint
      { p with accrued_token_per_share := p.accrued_token_per_share +
          mult * p.reward_per_block * 10 ^ p.precision_factor_rank / s } n) n
    obtain ⟨ga, -⟩ := advanceCheckpoint_fields
      { p with accrued_token_per_share := p.accrued_token_per_share +
          mult * p.reward_per_block * 10 ^ p.precision_factor_rank / s } n
    rw [ha, ga]

/-- Witness for C1, which is also Scenario A of the spec: on `poolA`
(start 0, end 100, rate 10) an update at time 50 with vault balance 100
increases `accrued_token_per_share` by `50*10*precision_factor/100 =
5 * precision_factor = 500`. -/
theorem c1_update_pool_accrual_delta_witness :
    poolA.last_reward_block < 50 ∧
    get_multiplier poolA poolA.last_reward_block 50 = some 50 ∧
    update_pool poolA 100 50 = Except.ok poolA50 ∧
    poolA50.accrued_token_per_share = poolA.accrued_token_per_share +
      50 * poolA.reward_per_block * 10 ^ poolA.precision_factor_rank / 100 ∧
    poolA50.accrued_token_per_share = poolA.accrued_token_per_share +
      5 * 10 ^ poolA.precision_factor_rank :=
  ⟨by decide, rfl, rfl,
   c1_update_pool_accrual_delta poolA poolA50 100 50 50 (by decide) (by decide) rfl rfl,
   by decide⟩

/-- Claim C5: `accrued_token_per_share` is non-decreasing across any single
`update_pool` call (hence across any sequence of calls): every path either
leaves it unchanged or adds a non-negative share. -/
theorem c5_accrued_monotone (p p1 : StakePool) (s n : Nat)
    (h : update_pool p s n = Except.ok p1) :
    p.accrued_token_per_share ≤ p1.accrued_token_per_share := by
  rcases update_pool_ok_inv h with ⟨-, rfl⟩ | ⟨-, -, rfl⟩ | ⟨-, -, mult, pf, -, -, -, -, -, rfl⟩
  · exact Nat.le_refl _
  · exact Nat.le_refl _
  · obtain ⟨ha, -⟩ := applyBonusReset_fields (advanceCheckpoint
      { p with accrued_token_per_share := p.accrued_token_per_share +
          mult * p.reward_per_block * pf / s } n) n
    obtain ⟨ga, -⟩ := advanceCheckpoint_fields
      { p with accrued_token_per_share := p.accrued_token_per_share +
          mult * p.reward_per_block * pf / s } n
    rw [ha, ga]
    exact Nat.le_add_right _ _

/-- Witness for C5 at a concrete accruing update. -/
theorem c5_accrued_monotone_witness :
    update_pool poolA 100 50 = Except.ok poolA50 ∧
    poolA.accrued_token_per_share ≤ poolA50.accrued_token_per_share :=
  ⟨rfl, c5_accrued_monotone poolA poolA50 100 50 rfl⟩

/-- Claim C8: `process_emergency_withdraw` bypasses accrual entirely — for
every pool state and position it succeeds, transfers back exactly the recorded
`amount`, zeroes the staked amount, leaves `reward_debt` and the whole pool
state (including `reward_amount` and `accrued_token_per_share`) untouched,
so the pending reward is neither paid nor recorded as a debt. -/
theorem c8_emergency_withdraw_spec (p : StakePool) (u : UserInfo) :
    process_emergency_withdraw p u =
      Except.ok (p, { u with amount := 0 }, u.amount) := by
  by_cases hpos : u.amount > 0
  · simp only [process_emergency_withdraw, if_pos hpos, checkedSub,
      if_pos (Nat.le_refl u.amount), Nat.sub_self]
  · have h0 : u.amount = 0 := by omega
    cases u with
    | mk a d => simp_all [process_emergency_withdraw]

/-- Claim C3 counterexample: the bonus window is *not* one-shot for the
lifetime of the pool.  Starting from `c3pool0` (no bonus ever armed), a first
`set_bonus_time` succeeds and arms `[10,20]` with multiplier 2; calling
`set_bonus_time` again at block 30 — after the first window has ended —
*succeeds* (the internal `update_pool` clears the expired window, so the
`bonus_end_block == None` assertion passes), returning `c3pool2` with a second
armed window `[40,60]`.  The claim requires this second call to fail. -/
theorem c3_counterexample :
    c3pool0.bonus_end_block = none ∧
    process_set_bonus_time c3pool0 100 0 2 10 20 = Except.ok c3pool1 ∧
    c3pool1.bonus_end_block = some 20 ∧
    process_set_bonus_time c3pool1 100 30 2 40 60 = Except.ok c3pool2 :=
  ⟨rfl, rfl, rfl, rfl⟩

/-- Claim C3 (amended): a second `set_bonus_time` fails as long as the armed
bonus window is still recorded, i.e. whenever the current block has not passed
the stored `bonus_end_block` (so `update_pool` cannot clear it); once the
window has expired and been cleared, re-arming is possible. -/
theorem c3_amended_one_shot_while_armed (p : StakePool) (s n mult bs be v : Nat)
    (hv : p.bonus_end_block = some v) (hn : n ≤ v) :
    exceptOk (process_set_bonus_time p s n mult bs be) = false := by
  unfold process_set_bonus_time
  split
  · rfl
  · split
    · rfl
    · cases hup : update_pool p s n with
      | error e => simp only [hup, exceptOk]
      | ok p1 =>
        have hb1 := update_pool_keeps_armed_bonus hv hn hup
        simp only [hup]
        rw [if_pos (by rw [hb1]; simp)]
        rfl

/-- Witness for the amended C3: with the window `[10,20]` still armed and not
yet expired at block 15, a second `set_bonus_time` fails. -/
theorem c3_amended_one_shot_while_armed_witness :
    c3pool1.bonus_end_block = some 20 ∧ (15 : Nat) ≤ 20 ∧
    exceptOk (process_set_bonus_time c3pool1 100 15 2 40 60) = false :=
  ⟨rfl, by decide,
   c3_amended_one_shot_while_armed c3pool1 100 15 2 40 60 20 rfl (by decide)⟩

/-- Claim C4 counterexample: the invariant
`last_checkpoint_time ∈ [start_time, min(now, end_time)]` is violated by the
empty-vault path of `update_pool`: on `c4pool` (checkpoint 50 inside
`[0,100]`), an update at block 150 with vault balance 0 sets the checkpoint to
150, beyond `min(150, end_time) = 100`. -/
theorem c4_counterexample :
    c4pool.start_block ≤ c4pool.last_reward_block ∧
    c4pool.last_reward_block ≤ c4pool.end_block ∧
    update_pool c4pool 0 150 = Except.ok { c4pool with last_reward_block := 150 } ∧
    ¬ ({ c4pool with last_reward_block := 150 } : StakePool).last_reward_block ≤
        min 150 ({ c4pool with last_reward_block := 150 } : StakePool).end_block :=
  ⟨by decide, by decide, rfl, by decide⟩

/-- Claim C4 (amended): after `update_pool` at a block past the checkpoint,
the new checkpoint is `min(now, end_time)` when the staked vault is nonempty
(and the call succeeds), but with an empty vault it is set to `now` itself,
which is not clamped to `[start_time, end_time]`. -/
theorem c4_amended_checkpoint (p p1 : StakePool) (s n : Nat)
    (hn : p.last_reward_block < n) :
    (s ≠ 0 → update_pool p s n = Except.ok p1 →
       p1.last_reward_block = min n p.end_block) ∧
    (s = 0 → update_pool p s n = Except.ok { p with last_reward_block := n }) := by
  constructor
  · intro hs h
    rcases update_pool_ok_inv h with ⟨h1, -⟩ | ⟨-, h2, -⟩ |
      ⟨-, -, mult, pf, -, -, -, -, -, rfl⟩
    · omega
    · exact absurd h2 hs
    · obtain ⟨-, -, -, -, -, -, hl⟩ := applyBonusReset_fields (advanceCheckpoint
        { p with accrued_token_per_share := p.accrued_token_per_share +
            mult * p.reward_per_block * pf / s } n) n
      obtain ⟨-, -, -, -, -, -, -, -, -, gl⟩ := advanceCheckpoint_fields
        { p with accrued_token_per_share := p.accrued_token_per_share +
            mult * p.reward_per_block * pf / s } n
      rw [hl, gl]
  · intro hs
    subst hs
    exact update_pool_empty p n hn

/-- Witness for the amended C4 on the nonzero-balance path. -/
theorem c4_amended_checkpoint_witness :
    poolA.last_reward_block < 50 ∧ (100 : Nat) ≠ 0 ∧
    poolA50.last_reward_block = min 50 poolA.end_block :=
  ⟨by decide, by decide,
   (c4_amended_checkpoint poolA poolA50 100 50 (by decide)).1 (by decide) rfl⟩

/-- Claim C7: a successful `set_bonus_time(multiplier, bonus_start, bonus_end)`
shortens `end_block` by exactly `(bonus_end − bonus_start) * (multiplier − 1)`
(which therefore cannot exceed the old end), and the call fails whenever the
shortened end would not be strictly after both the current block and
`start_block`.  The bound hypotheses express that the arguments are `u64`/`u8`
values whose shortfall product does not wrap. -/
theorem c7_set_bonus_time_shortens_end (p p1 : StakePool) (s n mult bs be : Nat)
    (hm1 : 1 ≤ mult) (hm64 : mult < U64SIZE) (hbe64 : be < U64SIZE)
    (hprod : (be - bs) * (mult - 1) < U64SIZE) :
    (process_set_bonus_time p s n mult bs be = Except.ok p1 →
       p1.end_block = p.end_block - (be - bs) * (mult - 1) ∧
       (be - bs) * (mult - 1) ≤ p.end_block ∧
       n < p1.end_block ∧ p.start_block < p1.end_block) ∧
    (p.end_block - (be - bs) * (mult - 1) ≤ n ∨
     p.end_block - (be - bs) * (mult - 1) ≤ p.start_block →
       exceptOk (process_set_bonus_time p s n mult bs be) = false) := by
  constructor
  · intro h
    unfold process_set_bonus_time at h
    split at h
    · exact absurd h (by simp)
    · rename_i hc1
      split at h
      · exact absurd h (by simp)
      · have hbsbe : bs < be := by omega
        cases hup : update_pool p s n with
        | error e => rw [hup] at h; exact absurd h (by simp)
        | ok p2 =>
          simp only [hup] at h
          obtain ⟨hstart, hend, -, -, -⟩ := update_pool_preserves hup
          split at h
          · exact absurd h (by simp)
          · rw [wsub64_eq (Nat.le_of_lt hbsbe) hbe64, wsub64_eq hm1 hm64,
              wmul64_eq hprod] at h
            cases hsub : checkedSub p2.end_block ((be - bs) * (mult - 1)) with
            | none => rw [hsub] at h; exact absurd h (by simp)
            | some newEnd =>
              simp only [hsub] at h
              obtain ⟨rfl, hle⟩ := checkedSub_some hsub
              split at h
              · exact absurd h (by simp)
              · rename_i hbudget
                rw [hend] at hle
                rw [hend, hstart] at hbudget
                split at h <;>
                · injection h with h
                  subst h
                  refine ⟨?_, hle, ?_, ?_⟩ <;> simp [hend] <;> omega
  · intro hcond
    unfold process_set_bonus_time
    split
    · rfl
    · rename_i hc1
      split
      · rfl
      · have hbsbe : bs < be := by omega
        cases hup : update_pool p s n with
        | error e => simp only [hup]; rfl
        | ok p2 =>
          simp only [hup]
          obtain ⟨hstart, hend, -, -, -⟩ := update_pool_preserves hup
          split
          · rfl
          · rw [wsub64_eq (Nat.le_of_lt hbsbe) hbe64, wsub64_eq hm1 hm64,
              wmul64_eq hprod]
            cases hsub : checkedSub p2.end_block ((be - bs) * (mult - 1)) with
            | none => rfl
            | some newEnd =>
              simp only [hsub]
              obtain ⟨rfl, hle⟩ := checkedSub_some hsub
              rw [if_pos (by rw [hend, hstart]; rw [hend] at hle; omega)]
              rfl

/-- Witness for C7, which is Scenario C of the spec: multiplier 2 over
`[40,60]` on the `start=0, end=100` pool leaves `end_block = 80`. -/
theorem c7_set_bonus_time_shortens_end_witness :
    process_set_bonus_time poolA 100 10 2 40 60 = Except.ok c7pool1 ∧
    c7pool1.end_block = poolA.end_block - (60 - 40) * (2 - 1) ∧
    c7pool1.end_block = 80 ∧ (10 : Nat) < c7pool1.end_block ∧
    poolA.start_block < c7pool1.end_block :=
  ⟨rfl,
   ((c7_set_bonus_time_shortens_end poolA c7pool1 100 10 2 40 60 (by decide)
      (by rw [u64size_eq]; norm_num) (by rw [u64size_eq]; norm_num)
      (by rw [u64size_eq]; norm_num)).1 rfl).1,
   rfl,
   ((c7_set_bonus_time_shortens_end poolA c7pool1 100 10 2 40 60 (by decide)
      (by rw [u64size_eq]; norm_num) (by rw [u64size_eq]; norm_num)
      (by rw [u64size_eq]; norm_num)).1 rfl).2.2.1,
   ((c7_set_bonus_time_shortens_end poolA c7pool1 100 10 2 40 60 (by decide)
      (by rw [u64size_eq]; norm_num) (by rw [u64size_eq]; norm_num)
      (by rw [u64size_eq]; norm_num)).1 rfl).2.2.2⟩

/-- Claim C9 counterexample: `get_pending` is *not* `Ok` exactly when the
mathematical difference is non-negative and fits in `u64`.  At
`current_amount = 2^63`, `accrued = 2^65`, rank 19, `reward_debt = 2^64 − 1`
(all representable), the difference `⌊2^128 / 10^19⌋ − (2^64 − 1)` is
non-negative and below `2^64`, yet `get_pending` returns the `Overflow` error
because the 128-bit intermediate product `2^63 * 2^65 = 2^128` overflows. -/
theorem c9_counterexample :
    (2 ^ 63 : Nat) < U64SIZE ∧ (2 ^ 65 : Nat) < U128SIZE ∧
    (2 ^ 64 - 1 : Nat) < U64SIZE ∧ (19 : Nat) ≤ 19 ∧
    (2 ^ 64 - 1 : Nat) ≤ 2 ^ 63 * 2 ^ 65 / 10 ^ 19 ∧
    2 ^ 63 * 2 ^ 65 / 10 ^ 19 - (2 ^ 64 - 1) < U64SIZE ∧
    get_pending (2 ^ 63) (2 ^ 65) 19 (2 ^ 64 - 1) =
      Except.error StakingErr.overflow :=
  ⟨by decide, by decide, by decide, by decide, by decide, by decide, rfl⟩

/-- Claim C9 (amended): for rank ≤ 19, `get_pending` returns
`Ok(⌊amount*accrued/10^rank⌋ − debt)` exactly when the 128-bit intermediate
product `amount * accrued` fits in `u128` *and* the difference is non-negative
and fits in `u64`; in every other case it returns the `Overflow` error. -/
theorem c9_amended_get_pending_spec (ca aps rank debt : Nat) (hrank : rank ≤ 19) :
    (ca * aps < U128SIZE ∧ debt ≤ ca * aps / 10 ^ rank ∧
       ca * aps / 10 ^ rank - debt < U64SIZE →
       get_pending ca aps rank debt = Except.ok (ca * aps / 10 ^ rank - debt)) ∧
    (¬ (ca * aps < U128SIZE ∧ debt ≤ ca * aps / 10 ^ rank ∧
          ca * aps / 10 ^ rank - debt < U64SIZE) →
       get_pending ca aps rank debt = Except.error StakingErr.overflow) := by
  have hpf : get_precision_factor rank = Except.ok (10 ^ rank) := by
    unfold get_precision_factor
    rw [if_pos (lt_of_le_of_lt (Nat.pow_le_pow_right (by norm_num) hrank)
      (by rw [u64size_eq]; norm_num))]
  have hne : (10 : Nat) ^ rank ≠ 0 := pow_ne_zero _ (by norm_num)
  constructor
  · rintro ⟨h1, h2, h3⟩
    unfold get_pending
    simp only [hpf, checkedMul128, if_pos h1, checkedDiv, if_neg hne,
      checkedSub, if_pos h2]
    rw [if_pos h3]
  · intro hneg
    unfold get_pending
    simp only [hpf]
    by_cases h1 : ca * aps < U128SIZE
    · simp only [checkedMul128, if_pos h1, checkedDiv, if_neg hne]
      by_cases h2 : debt ≤ ca * aps / 10 ^ rank
      · simp only [checkedSub, if_pos h2]
        have h3 : ¬ ca * aps / 10 ^ rank - debt < U64SIZE := by tauto
        rw [if_neg h3]
      · simp only [checkedSub, if_neg h2]
    · simp only [checkedMul128, if_neg h1]

/-- Witness for the amended C9 on the `Ok` side. -/
theorem c9_amended_get_pending_spec_witness :
    (100 * 500 : Nat) < U128SIZE ∧ (0 : Nat) ≤ 100 * 500 / 10 ^ 2 ∧
    (100 * 500 / 10 ^ 2 - 0 : Nat) < U64SIZE ∧
    get_pending 100 500 2 0 = Except.ok 500 :=
  ⟨by decide, by decide, by decide,
   (c9_amended_get_pending_spec 100 500 2 0 (by decide)).1
     ⟨by decide, by decide, by decide⟩⟩

/-- Claim C10: a successful `withdraw` decrements `reward_amount` by exactly
the pending reward it pays out (by 0 when pending is 0), and a successful
`deposit` decrements it by exactly the pending it pays (which is 0 unless the
prior stake and the pending are both positive); conversely, when the pending
computed from the post-update pool exceeds `reward_amount`, the checked
subtraction fails and the whole operation errors (so no state commits — the
embedding returns only an error value). -/
theorem c10_reward_amount_decrement (p p1 pafter : StakePool) (u uafter : UserInfo)
    (s n amt princ paid pend : Nat) :
    (process_withdraw p u s n amt = Except.ok (pafter, uafter, princ, paid) →
       p.reward_amount = pafter.reward_amount + paid) ∧
    (process_deposit p u s n amt = Except.ok (pafter, uafter, paid) →
       p.reward_amount = pafter.reward_amount + paid) ∧
    (update_pool p s n = Except.ok p1 →
     get_pending u.amount p1.accrued_token_per_share p1.precision_factor_rank
       u.reward_debt = Except.ok pend →
     p.reward_amount < pend → amt ≤ u.amount →
       exceptOk (process_withdraw p u s n amt) = false) ∧
    (update_pool p s n = Except.ok p1 →
     get_pending u.amount p1.accrued_token_per_share p1.precision_factor_rank
       u.reward_debt = Except.ok pend →
     p.reward_amount < pend → 0 < u.amount →
       exceptOk (process_deposit p u s n amt) = false) := by
  refine ⟨?_, ?_, ?_, ?_⟩
  · intro h
    unfold process_withdraw at h
    split at h
    · exact absurd h (by simp)
    · cases hup : update_pool p s n with
      | error e => rw [hup] at h; exact absurd h (by simp)
      | ok p2 =>
        simp only [hup] at h
        obtain ⟨-, -, hra, -, -⟩ := update_pool_preserves hup
        split at h
        · exact absurd h (by simp)
        · rename_i newAmount hna
          cases hpd : get_pending u.amount p2.accrued_token_per_share
              p2.precision_factor_rank u.reward_debt with
          | error e => rw [hpd] at h; exact absurd h (by simp)
          | ok pending =>
            simp only [hpd] at h
            cases hrd : get_reward_debt newAmount p2.accrued_token_per_share
                p2.precision_factor_rank with
            | error e => rw [hrd] at h; exact absurd h (by simp)
            | ok debt =>
              simp only [hrd] at h
              cases hsub : checkedSub p2.reward_amount pending with
              | none => rw [hsub] at h; exact absurd h (by simp)
              | some ra =>
                simp only [hsub] at h
                obtain ⟨rfl, hle⟩ := checkedSub_some hsub
                injection h with h
                simp only [Prod.mk.injEq] at h
                obtain ⟨h1, -, -, h4⟩ := h
                subst h1
                subst h4
                simp only []
                rw [← hra]
                omega
  · intro h
    unfold process_deposit at h
    cases hup : update_pool p s n with
    | error e => rw [hup] at h; exact absurd h (by simp)
    | ok p2 =>
      simp only [hup] at h
      obtain ⟨-, -, hra, -, -⟩ := update_pool_preserves hup
      cases hadd : checkedAdd64 u.amount amt with
      | none => rw [hadd] at h; exact absurd h (by simp)
      | some newAmount =>
        simp only [hadd] at h
        by_cases hu : u.amount > 0
        · simp only [if_pos hu] at h
          cases hpd : get_pending u.amount p2.accrued_token_per_share
              p2.precision_factor_rank u.reward_debt with
          | error e => rw [hpd] at h; exact absurd h (by simp)
          | ok pending =>
            simp only [hpd] at h
            by_cases hp : u.amount > 0 ∧ pending > 0
            · simp only [if_pos hp] at h
              cases hsub : checkedSub p2.reward_amount pending with
              | none => rw [hsub] at h; exact absurd h (by simp)
              | some ra =>
                simp only [hsub] at h
                obtain ⟨rfl, hle⟩ := checkedSub_some hsub
                cases hrd : get_reward_debt newAmount p2.accrued_token_per_share
                    p2.precision_factor_rank with
                | error e => rw [hrd] at h; exact absurd h (by simp)
                | ok debt =>
                  simp only [hrd] at h
                  injection h with h
                  simp only [Prod.mk.injEq] at h
                  obtain ⟨h1, -, h3⟩ := h
                  subst h1
                  subst h3
                  simp only []
                  rw [← hra]
                  omega
            · simp only [if_neg hp] at h
              cases hrd : get_reward_debt newAmount p2.accrued_token_per_share
                  p2.precision_factor_rank with
              | error e => rw [hrd] at h; exact absurd h (by simp)
              | ok debt =>
                simp only [hrd] at h
                injection h with h
                simp only [Prod.mk.injEq] at h
                obtain ⟨h1, -, h3⟩ := h
                subst h1
                subst h3
                simp only []
                omega
        · simp only [if_neg hu] at h
          have hp : ¬ (u.amount > 0 ∧ (0 : Nat) > 0) := by omega
          simp only [if_neg hp] at h
          cases hrd : get_reward_debt newAmount p2.accrued_token_per_share
              p2.precision_factor_rank with
          | error e => rw [hrd] at h; exact absurd h (by simp)
          | ok debt =>
            simp only [hrd] at h
            injection h with h
            simp only [Prod.mk.injEq] at h
            obtain ⟨h1, -, h3⟩ := h
            subst h1
            subst h3
            simp only []
            omega
  · intro hup hpd hlt hamt
    unfold process_withdraw
    rw [if_neg (by omega)]
    simp only [hup]
    obtain ⟨-, -, hra, -, -⟩ := update_pool_preserves hup
    have hnosub : ¬ pend ≤ p1.reward_amount := by rw [hra]; omega
    by_cases ha : amt > 0
    · simp only [if_pos ha, checkedSub, if_pos hamt, hpd]
      cases hrd : get_reward_debt (u.amount - amt) p1.accrued_token_per_share
          p1.precision_factor_rank with
      | error e => simp only [hrd]; rfl
      | ok debt =>
        simp only [hrd, checkedSub, if_neg hnosub]
        rfl
    · simp only [if_neg ha, hpd]
      cases hrd : get_reward_debt u.amount p1.accrued_token_per_share
          p1.precision_factor_rank with
      | error e => simp only [hrd]; rfl
      | ok debt =>
        simp only [hrd, checkedSub, if_neg hnosub]
        rfl
  · intro hup hpd hlt hu
    unfold process_deposit
    simp only [hup]
    obtain ⟨-, -, hra, -, -⟩ := update_pool_preserves hup
    cases hadd : checkedAdd64 u.amount amt with
    | none => simp only [hadd]; rfl
    | some newAmount =>
      simp only [hadd, if_pos hu, hpd]
      have hp : u.amount > 0 ∧ pend > 0 := ⟨hu, by omega⟩
      have hnosub : ¬ pend ≤ p1.reward_amount := by rw [hra]; omega
      simp only [if_pos hp, checkedSub, if_neg hnosub]
      rfl

/-- Witness for C10: withdrawing a 100-token stake with pending 500 pays the
500 out of `reward_amount` (1000 → 500), and a deposit on the same state pays
the same pending. -/
theorem c10_reward_amount_decrement_witness :
    process_withdraw c10pool ⟨100, 0⟩ 100 50 100 =
      Except.ok (c10poolAfter, ⟨0, 0⟩, 100, 500) ∧
    process_deposit c10pool ⟨100, 0⟩ 100 50 50 =
      Except.ok (c10poolAfter, ⟨150, 750⟩, 500) ∧
    c10pool.reward_amount = c10poolAfter.reward_amount + 500 :=
  ⟨rfl, rfl,
   (c10_reward_amount_decrement c10pool c10pool c10poolAfter ⟨100, 0⟩ ⟨0, 0⟩
      100 50 100 100 500 0).1 rfl⟩


/-- On in-range inputs with a well-formed bonus window, `get_multiplier`
computes the branch formulas in exact natural arithmetic (no `u64` wrap). -/
lemma get_multiplier_nat (p : StakePool) (a b m s e f t : Nat)
    (hm : p.bonus_multiplier = some m)
    (hs : bonusStartOrZero p = s) (he : bonusEndOrZero p = e)
    (hf : clampFrom p a = f) (ht : clampTo p b = t)
    (hse : s ≤ e) (hft : f ≤ t)
    (ht28 : t ≤ 2 ^ 28) (he28 : e ≤ 2 ^ 28) (hm28 : m ≤ 2 ^ 28) :
    get_multiplier p a b = some (
      if f < s ∧ t > e then (s - f) + (t - e) + (e - s) * m
      else if f < s ∧ t > s then (s - f) + (t - s) * m
      else if f < e ∧ t > e then (t - e) + (e - f) * m
      else if f ≥ s ∧ t ≤ e then (t - f) * m
      else t - f) := by
  have hU : U64SIZE = 18446744073709551616 := u64size_eq
  have h28 : (2 : Nat) ^ 28 = 268435456 := by norm_num
  have h56 : (2 : Nat) ^ 28 * 2 ^ 28 = 72057594037927936 := by norm_num
  unfold get_multiplier
  simp only [hm, hf, ht, hs, he]
  congr 1
  split_ifs with h1 h2 h3 h4
  · have hes : (e - s) * m ≤ 2 ^ 28 * 2 ^ 28 :=
      Nat.mul_le_mul (le_trans (Nat.sub_le e s) he28) hm28
    rw [wsub64_eq (Nat.le_of_lt h1.1) (by omega),
        wsub64_eq (Nat.le_of_lt h1.2) (by omega),
        wsub64_eq hse (by omega),
        wmul64_eq (by omega)]
    have e5 : wadd64 (s - f) (t - e) = (s - f) + (t - e) := wadd64_eq (by omega)
    rw [e5]
    have e6 : wadd64 ((s - f) + (t - e)) ((e - s) * m) =
        (s - f) + (t - e) + (e - s) * m := wadd64_eq (by omega)
    rw [e6]
  · have hts : (t - s) * m ≤ 2 ^ 28 * 2 ^ 28 :=
      Nat.mul_le_mul (le_trans (Nat.sub_le t s) ht28) hm28
    rw [wsub64_eq (Nat.le_of_lt h2.1) (by omega),
        wsub64_eq (Nat.le_of_lt h2.2) (by omega),
        wmul64_eq (by omega)]
    have e5 : wadd64 (s - f) ((t - s) * m) = (s - f) + (t - s) * m :=
      wadd64_eq (by omega)
    rw [e5]
  · have hef : (e - f) * m ≤ 2 ^ 28 * 2 ^ 28 :=
      Nat.mul_le_mul (le_trans (Nat.sub_le e f) he28) hm28
    rw [wsub64_eq (Nat.le_of_lt h3.2) (by omega),
        wsub64_eq (Nat.le_of_lt h3.1) (by omega),
        wmul64_eq (by omega)]
    have e5 : wadd64 (t - e) ((e - f) * m) = (t - e) + (e - f) * m :=
      wadd64_eq (by omega)
    rw [e5]
  · have htf : (t - f) * m ≤ 2 ^ 28 * 2 ^ 28 :=
      Nat.mul_le_mul (le_trans (Nat.sub_le t f) ht28) hm28
    rw [wsub64_eq hft (by omega), wmul64_eq (by omega)]
  · rw [wsub64_eq hft (by omega)]

/-- Claim C2: after clamping `[from,to]` into `[start_block, end_block]`
(`f`, `t`) and unpacking the bonus window (`s`, `e`, multiplier `m`), the
result of `get_multiplier` satisfies exactly the five disjoint cases of the
spec: (a) bonus fully outside `[f,t]` gives `t−f`; (b) straddling both edges
gives `(s−f)+(t−e)+(e−s)*m`; (c) straddling only the start gives
`(s−f)+(t−s)*m`; (d) straddling only the end gives `(t−e)+(e−f)*m`;
(e) `[f,t]` inside the bonus gives `(t−f)*m`.  Hypotheses: the multiplier is
set (the code `unwrap`s it; it is `Some` in every reachable state), the window
is an interval (`s ≤ e`), the clamped interval is proper (`f ≤ t`), and the
quantities are small enough that the unchecked `u64` arithmetic does not
wrap. -/
theorem c2_get_multiplier_five_cases (p : StakePool) (a b m s e f t r : Nat)
    (hm : p.bonus_multiplier = some m)
    (hs : bonusStartOrZero p = s) (he : bonusEndOrZero p = e)
    (hf : clampFrom p a = f) (ht : clampTo p b = t)
    (hse : s ≤ e) (hft : f ≤ t)
    (ht28 : t ≤ 2 ^ 28) (he28 : e ≤ 2 ^ 28) (hm28 : m ≤ 2 ^ 28)
    (hr : get_multiplier p a b = some r) :
    ((e ≤ f ∨ t ≤ s) → r = t - f) ∧
    (f < s ∧ e < t → r = (s - f) + (t - e) + (e - s) * m) ∧
    (f < s ∧ s < t ∧ t ≤ e → r = (s - f) + (t - s) * m) ∧
    (s ≤ f ∧ f < e ∧ e < t → r = (t - e) + (e - f) * m) ∧
    (s ≤ f ∧ t ≤ e → r = (t - f) * m) := by
  rw [get_multiplier_nat p a b m s e f t hm hs he hf ht hse hft ht28 he28 hm28] at hr
  injection hr with hr
  subst hr
  refine ⟨?_, ?_, ?_, ?_, ?_⟩
  · rintro (hef | hts)
    · rw [if_neg (by omega), if_neg (by omega), if_neg (by omega)]
      by_cases h4 : f ≥ s ∧ t ≤ e
      · rw [if_pos h4]
        have h0 : t - f = 0 := by omega
        rw [h0, Nat.zero_mul]
      · rw [if_neg h4]
    · rw [if_neg (by omega), if_neg (by omega), if_neg (by omega)]
      by_cases h4 : f ≥ s ∧ t ≤ e
      · rw [if_pos h4]
        have h0 : t - f = 0 := by omega
        rw [h0, Nat.zero_mul]
      · rw [if_neg h4]
  · rintro ⟨h1, h2⟩
    rw [if_pos ⟨h1, h2⟩]
  · rintro ⟨h1, h2, h3⟩
    rw [if_neg (by omega), if_pos ⟨h1, h2⟩]
  · rintro ⟨h1, h2, h3⟩
    rw [if_neg (by omega), if_neg (by omega), if_pos ⟨h2, h3⟩]
  · rintro ⟨h1, h2⟩
    rw [if_neg (by omega), if_neg (by omega), if_neg (by omega), if_pos ⟨h1, h2⟩]

/-- Witness for C2 on the both-edges-straddled case: on `c3pool1` (window
`[10,20]`, multiplier 2) the interval `[0,30]` weighs to
`(10−0) + (30−20) + (20−10)*2 = 40`. -/
theorem c2_get_multiplier_five_cases_witness :
    get_multiplier c3pool1 0 30 = some 40 ∧
    bonusStartOrZero c3pool1 = 10 ∧ bonusEndOrZero c3pool1 = 20 ∧
    clampFrom c3pool1 0 = 0 ∧ clampTo c3pool1 30 = 30 ∧
    (40 : Nat) = (10 - 0) + (30 - 20) + (20 - 10) * 2 :=
  ⟨rfl, rfl, rfl, rfl, rfl,
   (c2_get_multiplier_five_cases c3pool1 0 30 2 10 20 0 30 40 rfl rfl rfl rfl rfl
      (by decide) (by decide) (by decide) (by decide) (by decide) rfl).2.1
     ⟨by decide, by decide⟩⟩

lemma get_multiplier_isSome {p : StakePool} {a b r : Nat}
    (h : get_multiplier p a b = some r) : ∃ m0, p.bonus_multiplier = some m0 := by
  unfold get_multiplier at h
  cases hb : p.bonus_multiplier with
  | none => rw [hb] at h; exact absurd h (by simp)
  | some m0 => exact ⟨m0, rfl⟩

/-- At a checkpoint already sitting at `end_block`, the weighted unit count of
a further update is `0` (for a cleared bonus state, or one whose window is
still ahead of the pool end). -/
lemma get_multiplier_end_to_zero (q : StakePool) (n mm : Nat)
    (hm : q.bonus_multiplier = some mm)
    (hse : q.start_block ≤ q.end_block)
    (hn : q.end_block ≤ n)
    (hb : (q.bonus_end_block = none ∧ q.bonus_start_block = none) ∨
          (∃ v, q.bonus_end_block = some v ∧ q.end_block < v)) :
    get_multiplier q q.end_block n = some 0 := by
  have hf : clampFrom q q.end_block = q.end_block := by
    unfold clampFrom; rw [if_neg (by omega)]
  have ht : clampTo q n = q.end_block := by
    unfold clampTo
    by_cases hc : q.end_block < n
    · rw [if_pos hc]
    · rw [if_neg hc]; omega
  unfold get_multiplier
  simp only [hm, hf, ht]
  rcases hb with ⟨hbe, hbs⟩ | ⟨v, hbe, hv⟩
  · have hs0 : bonusStartOrZero q = 0 := by unfold bonusStartOrZero; rw [hbs]
    have he0 : bonusEndOrZero q = 0 := by unfold bonusEndOrZero; rw [hbe]
    simp only [hs0, he0]
    congr 1
    rw [if_neg (by omega), if_neg (by omega), if_neg (by omega)]
    by_cases h4 : q.end_block ≤ 0
    · rw [if_pos ⟨Nat.zero_le _, h4⟩, wsub64_self]
      unfold wmul64
      simp
    · rw [if_neg (by omega), wsub64_self]
  · have he0 : bonusEndOrZero q = v := by unfold bonusEndOrZero; rw [hbe]
    simp only [he0]
    congr 1
    rw [if_neg (by omega), if_neg (by omega), if_neg (by omega)]
    by_cases h4 : bonusStartOrZero q ≤ q.end_block
    · rw [if_pos ⟨h4, by omega⟩, wsub64_self]
      unfold wmul64
      simp
    · rw [if_neg (by omega), wsub64_self]

lemma record_set_last (z : StakePool) (x : Nat) (h : z.last_reward_block = x) :
    ({ z with last_reward_block := x } : StakePool) = z := by
  cases z
  simp_all

/-- A pool whose checkpoint already equals its (past) `end_block`, with a sane
bonus state, is a fixed point of `update_pool`. -/
lemma update_pool_stable_at_end (P1 : StakePool) (s n pf : Nat)
    (h2 : s ≠ 0)
    (hend : P1.end_block < n)
    (hlast : P1.last_reward_block = P1.end_block)
    (hse : P1.start_block ≤ P1.end_block)
    (hacc : P1.accrued_token_per_share < U128SIZE)
    (hpf : get_precision_factor P1.precision_factor_rank = Except.ok pf)
    (hmm : ∃ mm, P1.bonus_multiplier = some mm)
    (hb : (P1.bonus_end_block = none ∧ P1.bonus_start_block = none) ∨
          ∃ v, P1.bonus_end_block = some v ∧ n ≤ v) :
    update_pool P1 s n = Except.ok P1 := by
  obtain ⟨mm, hmm⟩ := hmm
  have hm0 : get_multiplier P1 P1.last_reward_block n = some 0 := by
    rw [hlast]
    refine get_multiplier_end_to_zero P1 n mm hmm hse (le_of_lt hend) ?_
    rcases hb with ⟨hbe, hbs⟩ | ⟨v, hbe, hnv⟩
    · exact Or.inl ⟨hbe, hbs⟩
    · exact Or.inr ⟨v, hbe, by omega⟩
  have hfwd := update_pool_full_eq P1 s n 0 pf (by rw [hlast]; exact hend) h2 hm0 hpf
      (by rw [Nat.zero_mul, u64size_eq]; norm_num)
      (by rw [Nat.zero_mul, Nat.zero_mul, u128size_eq]; norm_num)
      (by simpa using hacc)
  rw [hfwd]
  congr 1
  have hrec : ({ P1 with accrued_token_per_share := P1.accrued_token_per_share +
      0 * P1.reward_per_block * pf / s } : StakePool) = P1 := by
    simp
  rw [hrec]
  have hadv : advanceCheckpoint P1 n = P1 := by
    unfold advanceCheckpoint
    rw [if_neg (by omega)]
    exact record_set_last P1 P1.end_block hlast
  rw [hadv]
  rcases hb with ⟨hbe, -⟩ | ⟨v, hbe, hnv⟩
  · unfold applyBonusReset
    simp only [hbe]
  · exact applyBonusReset_keep hbe hnv

/-- Claim C6: `update_pool` is idempotent within one time unit.  First, when
`now ≤ last_reward_block` the call is an exact no-op.  Second, on any pool
whose schedule is an interval (`start ≤ end`) and whose bonus state is
reachable (an armed window is never `Some(0)`, and an unset window has no
dangling start edge — all three hold after `initialize`, `set_bonus_time` and
the clearing in `update_pool`), a second `update_pool` with the same block and
the same vault balance returns the state of the first call unchanged. -/
theorem c6_update_pool_idempotent (p p1 : StakePool) (s n : Nat)
    (hwf1 : p.start_block ≤ p.end_block)
    (hwf2 : p.bonus_end_block ≠ some 0)
    (hwf3 : p.bonus_end_block = none → p.bonus_start_block = none) :
    (n ≤ p.last_reward_block → update_pool p s n = Except.ok p) ∧
    (update_pool p s n = Except.ok p1 → update_pool p1 s n = Except.ok p1) := by
  refine ⟨update_pool_noop p s n, ?_⟩
  intro h
  rcases update_pool_ok_inv h with ⟨h1, rfl⟩ | ⟨h1, rfl, rfl⟩ |
    ⟨h1, h2, mult, pf, hm, hpf, hb1, hb2, hb3, rfl⟩
  · exact h
  · exact update_pool_noop _ 0 n (Nat.le_refl n)
  · set A := p.accrued_token_per_share + mult * p.reward_per_block * pf / s with hA
    obtain ⟨qa, qst, qen, qra, qrp, qpr, qbm, qbs, qbe, qlast⟩ :=
      advanceCheckpoint_fields { p with accrued_token_per_share := A } n
    obtain ⟨ba, bst, ben, bra, brp, bpr, blast⟩ :=
      applyBonusReset_fields (advanceCheckpoint { p with accrued_token_per_share := A } n) n
    by_cases hEnd : n ≤ p.end_block
    · refine update_pool_noop _ s n ?_
      rw [blast, qlast]
      show n ≤ min n p.end_block
      omega
    · push_neg at hEnd
      obtain ⟨m0, hm0⟩ := get_multiplier_isSome hm
      have hQbe : (advanceCheckpoint { p with accrued_token_per_share := A } n).bonus_end_block
          = p.bonus_end_block := qbe
      have hQbs : (advanceCheckpoint { p with accrued_token_per_share := A } n).bonus_start_block
          = p.bonus_start_block := qbs
      have hQbm : (advanceCheckpoint { p with accrued_token_per_share := A } n).bonus_multiplier
          = p.bonus_multiplier := qbm
      have hbfacts :
          (∃ mm, (applyBonusReset (advanceCheckpoint
              { p with accrued_token_per_share := A } n) n).bonus_multiplier = some mm) ∧
          (((applyBonusReset (advanceCheckpoint
              { p with accrued_token_per_share := A } n) n).bonus_end_block = none ∧
            (applyBonusReset (advanceCheckpoint
              { p with accrued_token_per_share := A } n) n).bonus_start_block = none) ∨
           ∃ v, (applyBonusReset (advanceCheckpoint
              { p with accrued_token_per_share := A } n) n).bonus_end_block = some v ∧ n ≤ v) := by
        rcases Option.eq_none_or_eq_some p.bonus_end_block with hpbe | ⟨v, hpbe⟩
        · have hid : applyBonusReset (advanceCheckpoint
              { p with accrued_token_per_share := A } n) n =
              advanceCheckpoint { p with accrued_token_per_share := A } n := by
            unfold applyBonusReset
            have hnone : (advanceCheckpoint
                { p with accrued_token_per_share := A } n).bonus_end_block = none := by
              rw [hQbe]; exact hpbe
            simp only [hnone]
          refine ⟨⟨m0, ?_⟩, Or.inl ⟨?_, ?_⟩⟩
          · rw [hid, hQbm]; exact hm0
          · rw [hid, hQbe]; exact hpbe
          · rw [hid, hQbs]; exact hwf3 hpbe
        · have hv0 : v ≠ 0 := by
            intro h0
            exact hwf2 (by rw [hpbe, h0])
          have hQv : (advanceCheckpoint
              { p with accrued_token_per_share := A } n).bonus_end_block = some v := by
            rw [hQbe]; exact hpbe
          by_cases hclear : n > v
          · have hid : applyBonusReset (advanceCheckpoint
                { p with accrued_token_per_share := A } n) n =
                { advanceCheckpoint { p with accrued_token_per_share := A } n with
                  bonus_start_block := none, bonus_end_block := none,
                  bonus_multiplier := some 1 } := by
              unfold applyBonusReset
              simp only [hQv]
              rw [if_pos ⟨hv0, hclear⟩]
            refine ⟨⟨1, ?_⟩, Or.inl ⟨?_, ?_⟩⟩ <;> rw [hid]
          · have hid : applyBonusReset (advanceCheckpoint
                { p with accrued_token_per_share := A } n) n =
                advanceCheckpoint { p with accrued_token_per_share := A } n := by
              unfold applyBonusReset
              simp only [hQv]
              rw [if_neg (fun hcon => hclear hcon.2)]
            refine ⟨⟨m0, ?_⟩, Or.inr ⟨v, ?_, by omega⟩⟩
            · rw [hid, hQbm]; exact hm0
            · rw [hid]; exact hQv
      refine update_pool_stable_at_end _ s n pf h2 ?_ ?_ ?_ ?_ ?_ hbfacts.1 hbfacts.2
      · rw [ben, qen]
        exact hEnd
      · rw [blast, qlast, ben, qen]
        exact Nat.min_eq_right (le_of_lt hEnd)
      · rw [bst, qst, ben, qen]
        exact hwf1
      · rw [ba, qa]
        exact hb3
      · rw [bpr, qpr]
        exact hpf

/-- Witness for C6: on `poolA` an update at block 150 (past the end) stops the
checkpoint at 100; the immediate second call at 150 returns the same state,
and on `c4pool` a call at block 30 ≤ checkpoint 50 is an exact no-op. -/
theorem c6_update_pool_idempotent_witness :
    update_pool poolA 100 150 = Except.ok poolA150 ∧
    update_pool poolA150 100 150 = Except.ok poolA150 ∧
    (30 : Nat) ≤ c4pool.last_reward_block ∧
    update_pool c4pool 100 30 = Except.ok c4pool :=
  ⟨rfl,
   (c6_update_pool_idempotent poolA poolA150 100 150 (by decide) (by decide)
      (fun _ => rfl)).2 rfl,
   by decide,
   (c6_update_pool_idempotent c4pool c4pool 100 30 (by decide) (by decide)
      (fun _ => rfl)).1 (by decide)⟩

end Staking
